import Mathlib

/-!
Shallow embedding of the rwaybar core (src/state.rs, src/tray.rs) and proofs
about its wake scheduler, render tick, and system-tray directory.

Machine integers from the source are modelled as `Nat`/`Int`; `Instant` is a
`Nat` tick count (only its ordering matters); Wayland/D-Bus side effects are
recorded as explicit event lists.
-/

namespace Rwaybar

/-! ## Wake scheduler (src/state.rs, `Runtime::set_wake_at` and the wake task)

`RefreshState.time : Cell<Option<Instant>>` is modelled as `Option Nat`.
`set_wake_at` returns the new stored deadline together with a flag recording
whether `refresh.notify.notify_one()` was called (the internal re-arm
notification for the background task). -/

/-- Embedding of `Runtime::set_wake_at`:
```
match self.refresh.time.get() {
    Some(t) if t < wake => return,
    _ => ()
}
self.refresh.time.set(Some(wake));
self.refresh.notify.notify_one();
``` -/
def set_wake_at (time : Option Nat) (wake : Nat) : Option Nat × Bool :=
  match time with
  | some t => if t < wake then (some t, false) else (some wake, true)
  | none => (some wake, true)

/-- Embedding of the `Either::Left` branch of the background wake task in
`State::new`: when the sleep-until-deadline future wins the race, the task runs
`refresh.time.set(None); notify.notify_one()`.  The returned flag records the
redraw notification sent on `runtime.notify`. -/
def wakeTaskFire (_time : Option Nat) : Option Nat × Bool :=
  (none, true)

/-- Replay a sequence of `set_wake_at` calls (no deadline elapses in between),
keeping only the stored deadline. -/
def runWakes (time : Option Nat) : List Nat → Option Nat
  | [] => time
  | w :: ws => runWakes (set_wake_at time w).1 ws

/-- Minimum of a nonempty list, folded from an initial head. -/
def minFrom (a : Nat) : List Nat → Nat
  | [] => a
  | w :: ws => minFrom (min a w) ws

theorem set_wake_at_some (t w : Nat) :
    set_wake_at (some t) w = (some (min t w), decide (w ≤ t)) := by
  simp only [set_wake_at]
  rcases Nat.lt_or_ge t w with h | h
  · rw [if_pos h, Nat.min_eq_left (Nat.le_of_lt h)]
    simp [Nat.not_le.mpr h]
  · rw [if_neg (Nat.not_lt.mpr h), Nat.min_eq_right h]
    simp [h]

theorem runWakes_some (t : Nat) (ws : List Nat) :
    runWakes (some t) ws = some (minFrom t ws) := by
  induction ws generalizing t with
  | nil => rfl
  | cons w ws ih =>
      simp only [runWakes, minFrom, set_wake_at_some]
      exact ih (min t w)

theorem runWakes_none (w : Nat) (ws : List Nat) :
    runWakes none (w :: ws) = some (minFrom w ws) := by
  simp only [runWakes, set_wake_at]
  exact runWakes_some w ws

theorem minFrom_le (a : Nat) (ws : List Nat) :
    minFrom a ws ≤ a ∧ ∀ x ∈ ws, minFrom a ws ≤ x := by
  induction ws generalizing a with
  | nil => exact ⟨Nat.le_refl a, by simp⟩
  | cons w ws ih =>
      refine ⟨Nat.le_trans (ih (min a w)).1 (Nat.min_le_left a w), ?_⟩
      intro x hx
      rcases List.mem_cons.mp hx with rfl | hx
      · exact Nat.le_trans (ih (min a x)).1 (Nat.min_le_right a x)
      · exact (ih (min a w)).2 x hx

theorem minFrom_mem (a : Nat) (ws : List Nat) : minFrom a ws ∈ a :: ws := by
  induction ws generalizing a with
  | nil => exact List.mem_cons_self a []
  | cons w ws ih =>
      have h := ih (min a w)
      simp only [minFrom]
      rcases List.mem_cons.mp h with h | h
      · rw [h]
        rcases Nat.le_total a w with hle | hle
        · rw [Nat.min_eq_left hle]; exact List.mem_cons_self _ _
        · rw [Nat.min_eq_right hle]
          exact List.mem_cons_of_mem _ (List.mem_cons_self _ _)
      · exact List.mem_cons_of_mem _ (List.mem_cons_of_mem _ h)

/-- C1: the stored wake deadline, when present, is the earliest outstanding
request.  A `set_wake_at` call with a deadline strictly later than the stored
one is a no-op (stored deadline unchanged, no internal notification); a call
with an earlier-or-equal deadline, or with none stored, replaces the stored
deadline and notifies; after any nonempty sequence of calls the stored
deadline is exactly the minimum of all requested deadlines; a registration
never clears the stored deadline to `none` — only the background wake task
does, when the deadline elapses. -/
theorem wake_earliest_c1 :
    (∀ t w, t < w → set_wake_at (some t) w = (some t, false)) ∧
    (∀ t w, w ≤ t → set_wake_at (some t) w = (some w, true)) ∧
    (∀ w, set_wake_at none w = (some w, true)) ∧
    (∀ w ws, runWakes none (w :: ws) = some (minFrom w ws) ∧
      minFrom w ws ∈ w :: ws ∧ ∀ x ∈ w :: ws, minFrom w ws ≤ x) ∧
    (∀ time w, (set_wake_at time w).1 ≠ none) ∧
    (∀ time, wakeTaskFire time = (none, true)) := by
  refine ⟨?_, ?_, ?_, ?_, ?_, fun _ => rfl⟩
  · intro t w h
    simp [set_wake_at, h]
  · intro t w h
    simp [set_wake_at, Nat.not_lt.mpr h]
  · intro w; rfl
  · intro w ws
    refine ⟨runWakes_none w ws, minFrom_mem w ws, ?_⟩
    intro x hx
    rcases List.mem_cons.mp hx with rfl | hx
    · exact (minFrom_le x ws).1
    · exact (minFrom_le w ws).2 x hx
  · intro time w
    cases time with
    | none => simp [set_wake_at]
    | some t =>
        simp only [set_wake_at]
        split <;> simp

/-- Witness for C1 at concrete inputs: merging the later deadline 7 into a
stored 3 is a no-op with no notification; merging 3 into 7 replaces; replaying
requests [7, 3, 9] stores the earliest, 3. -/
theorem wake_earliest_c1_witness :
    set_wake_at (some 3) 7 = (some 3, false) ∧
    set_wake_at (some 7) 3 = (some 3, true) ∧
    runWakes none [7, 3, 9] = some 3 := by
  refine ⟨wake_earliest_c1.1 3 7 (by decide), wake_earliest_c1.2.1 7 3 (by decide), ?_⟩
  have h := (wake_earliest_c1.2.2.2.1 7 [3, 9]).1
  simpa [minFrom] using h

/-! ## Painting (src/state.rs, `State::draw_now`, `State::set_data`, `State::tick`)

A `Bar` is modelled by the fields painting looks at: `width`/`height` hold the
negotiated surface size (the `u32` values delivered by the configure event)
and `dirty` is the repaint marker.  The `surf`/`ls_surf`/`sink`/`item` fields
take no part in the byte-size or commit accounting.  Wayland requests are
recorded as an explicit event list; actual pixel rendering through cairo is a
side effect on the byte range and does not influence control flow. -/

structure Bar where
  width : Nat
  height : Nat
  dirty : Bool
deriving Repr, DecidableEq

/-- Embedding of `cairo::Format::ARgb32.stride_for_width(w)`: 4 bytes per pixel, and
`4 * w` is already aligned to cairo's 4-byte stride requirement. -/
def strideForWidth (w : Nat) : Nat := 4 * w

/-- Byte size a bar contributes to the shared-memory region this tick:
`height * stride` when dirty, `0` when clean (the `shm_pos` computation in
`draw_now`). -/
def byteSize (b : Bar) : Nat :=
  if b.dirty then b.height * strideForWidth b.width else 0

/-- The `shm_size` value after the first loop of `draw_now`. -/
def shmSize (bars : List Bar) : Nat := (bars.map byteSize).sum

/-- Wayland requests issued during a tick, in order. -/
inductive DrawEv where
  | resize (bytes : Nat)
  | attach
  | damage
  | commit
  | flush
deriving Repr, DecidableEq

/-- Body of the second loop of `draw_now` for one bar: a clean bar is skipped
(`continue`); a dirty bar is rendered into its byte range, its buffer attached,
the full area damaged, the surface committed, and its dirty flag cleared. -/
def drawBar (b : Bar) : Bar × List DrawEv :=
  if b.dirty then ({ b with dirty := false }, [.attach, .damage, .commit])
  else (b, [])

def drawLoop : List Bar → List Bar × List DrawEv
  | [] => ([], [])
  | b :: rest =>
      let (b', evs) := drawBar b
      let (rest', evs') := drawLoop rest
      (b' :: rest', evs ++ evs')

/-- Embedding of `State::draw_now`: compute the shared-memory size over the
dirty bars; if it is zero return at once (no resize, no attach/damage/commit);
otherwise resize the pool to exactly that size, render and commit every dirty
bar, and flush the display once. -/
def draw_now (bars : List Bar) : List Bar × List DrawEv :=
  if shmSize bars = 0 then (bars, [])
  else
    let (bars', evs) := drawLoop bars
    (bars', .resize (shmSize bars) :: (evs ++ [.flush]))

/-- Embedding of `State::set_data` restricted to its effect on bars: every bar
in the active set is marked dirty (variable updates do not touch bars). -/
def set_data (bars : List Bar) : List Bar :=
  bars.map fun b => { b with dirty := true }

/-- Embedding of `State::tick`: `set_data` then `draw_now`. -/
def tick (bars : List Bar) : List Bar × List DrawEv :=
  draw_now (set_data bars)

theorem shmSize_eq_dirty_sum (bars : List Bar) :
    shmSize bars =
      ((bars.filter (·.dirty)).map fun b => b.height * strideForWidth b.width).sum := by
  induction bars with
  | nil => rfl
  | cons b bs ih =>
      cases hb : b.dirty <;>
        simp [shmSize, byteSize, hb, List.filter_cons, ih] <;>
        simpa [shmSize] using ih

theorem drawLoop_fst (bars : List Bar) :
    (drawLoop bars).1 = bars.map fun b => if b.dirty then { b with dirty := false } else b := by
  induction bars with
  | nil => rfl
  | cons b bs ih =>
      cases hb : b.dirty <;> simp [drawLoop, drawBar, hb, ih]

theorem drawLoop_count_commit (bars : List Bar) :
    (drawLoop bars).2.count .commit = (bars.filter (·.dirty)).length := by
  induction bars with
  | nil => rfl
  | cons b bs ih =>
      cases hb : b.dirty <;>
        simp [drawLoop, drawBar, hb, List.filter_cons, List.count_append, List.count_cons, ih]

theorem drawLoop_count_attach (bars : List Bar) :
    (drawLoop bars).2.count .attach = (bars.filter (·.dirty)).length := by
  induction bars with
  | nil => rfl
  | cons b bs ih =>
      cases hb : b.dirty <;>
        simp [drawLoop, drawBar, hb, List.filter_cons, List.count_append, List.count_cons, ih]

theorem drawLoop_count_damage (bars : List Bar) :
    (drawLoop bars).2.count .damage = (bars.filter (·.dirty)).length := by
  induction bars with
  | nil => rfl
  | cons b bs ih =>
      cases hb : b.dirty <;>
        simp [drawLoop, drawBar, hb, List.filter_cons, List.count_append, List.count_cons, ih]

/-- Shared helper: behaviour of `draw_now` when the shared-memory size is
nonzero — the resize comes first and is exact, each dirty bar gets one
attach/damage/commit, and exactly the dirty flags are cleared. -/
theorem draw_now_spec_pos (bars : List Bar) (hz : shmSize bars ≠ 0) :
    (∃ evs, (draw_now bars).2 = .resize (shmSize bars) :: evs) ∧
    (draw_now bars).2.count .commit = (bars.filter (·.dirty)).length ∧
    (draw_now bars).2.count .attach = (bars.filter (·.dirty)).length ∧
    (draw_now bars).2.count .damage = (bars.filter (·.dirty)).length ∧
    (draw_now bars).1 = (bars.map fun b => if b.dirty then { b with dirty := false } else b) := by
  refine ⟨⟨(drawLoop bars).2 ++ [.flush], by simp [draw_now, hz]⟩, ?_, ?_, ?_, ?_⟩
  · simp [draw_now, hz, List.count_cons, List.count_append, drawLoop_count_commit]
  · simp [draw_now, hz, List.count_cons, List.count_append, drawLoop_count_attach]
  · simp [draw_now, hz, List.count_cons, List.count_append, drawLoop_count_damage]
  · simp [draw_now, hz, drawLoop_fst]

/-- C2 counterexample: a list with exactly one dirty bar whose byte size is
zero (width 0, height 0 — the size every bar has before its first configure).
The claim requires one commit for this dirty bar and its dirty flag cleared;
`draw_now` instead takes the `shm_size == 0` early return, issues no commit
(and no resize), and leaves the flag set. -/
theorem draw_now_c2_counterexample :
    ((([⟨0, 0, true⟩] : List Bar).filter (·.dirty)).length = 1) ∧
    (draw_now [⟨0, 0, true⟩]).2.count .commit = 0 ∧
    (draw_now [⟨0, 0, true⟩]).2 = [] ∧
    ((draw_now [⟨0, 0, true⟩]).1.map (·.dirty)) = [true] := by
  decide

/-- C2 amended: with zero dirty bars `draw_now` allocates nothing and issues
no events at all; the shared-memory size is exactly the sum of the dirty bars'
byte sizes (height times the ARgb32 stride for the width; clean bars
contribute zero); and *provided that sum is nonzero*, `draw_now` issues the
resize first, then exactly one attach, one damage, and one commit per dirty
bar, and clears exactly the dirty bars' flags.  When the sum is zero — even
with dirty bars present — `draw_now` returns without resizing or committing
and the dirty flags survive. -/
theorem draw_now_c2_amended (bars : List Bar) :
    (shmSize bars =
      ((bars.filter (·.dirty)).map fun b => b.height * strideForWidth b.width).sum) ∧
    ((bars.filter (·.dirty)).length = 0 → draw_now bars = (bars, [])) ∧
    (shmSize bars = 0 → draw_now bars = (bars, [])) ∧
    (shmSize bars ≠ 0 →
      (∃ evs, (draw_now bars).2 = .resize (shmSize bars) :: evs) ∧
      (draw_now bars).2.count .commit = (bars.filter (·.dirty)).length ∧
      (draw_now bars).2.count .attach = (bars.filter (·.dirty)).length ∧
      (draw_now bars).2.count .damage = (bars.filter (·.dirty)).length ∧
      (draw_now bars).1 = bars.map fun b => if b.dirty then { b with dirty := false } else b) := by
  refine ⟨shmSize_eq_dirty_sum bars, ?_, ?_, ?_⟩
  · intro h
    have hz : shmSize bars = 0 := by
      rw [shmSize_eq_dirty_sum bars]
      rcases List.length_eq_zero.mp h with hnil
      rw [hnil]; rfl
    simp [draw_now, hz]
  · intro hz; simp [draw_now, hz]
  · intro hz
    exact draw_now_spec_pos bars hz

/-- Witness for C2 at concrete inputs: one clean and one dirty 2x1 bar; the
pool is resized to 8 = 1 * (4*2) bytes, one commit is issued, and the dirty
flag is cleared. -/
theorem draw_now_c2_amended_witness :
    shmSize [⟨3, 5, false⟩, ⟨2, 1, true⟩] = 8 ∧
    (draw_now [⟨3, 5, false⟩, ⟨2, 1, true⟩]).2.count .commit = 1 ∧
    (draw_now [⟨3, 5, false⟩, ⟨2, 1, true⟩]).1 = [⟨3, 5, false⟩, ⟨2, 1, false⟩] := by
  have h := (draw_now_c2_amended [⟨3, 5, false⟩, ⟨2, 1, true⟩]).2.2.2 (by decide)
  refine ⟨by decide, ?_, ?_⟩
  · rw [h.2.1]; decide
  · rw [h.2.2.2.2]; decide

/-- C9 counterexample: one clean bar of width 0 and height 0 (exactly the
state of a freshly created, not yet configured bar).  `tick` marks it dirty
via `set_data`, but `draw_now` then takes the zero-size early return and
commits nothing, so this bar that existed when the tick started is *not*
repainted and committed. -/
theorem tick_c9_counterexample :
    ((set_data [⟨0, 0, false⟩]).map (·.dirty) = [true]) ∧
    (tick [⟨0, 0, false⟩]).2.count .commit = 0 ∧
    ([⟨0, 0, false⟩] : List Bar).length = 1 := by
  decide

/-- C9 amended: every call to `tick` first runs `set_data`, which marks every
bar dirty before painting, so the clean-surface skip path of `draw_now` is
never taken for a bar that existed when the tick started; and *provided the
total byte size of the bars is nonzero*, every bar (not only those whose
content changed) receives exactly one commit.  When the total byte size is
zero, `draw_now` returns early and no bar is committed. -/
theorem tick_c9_amended (bars : List Bar) :
    (∀ b ∈ set_data bars, b.dirty = true) ∧
    ((set_data bars).filter (fun b => !b.dirty) = []) ∧
    (shmSize (set_data bars) ≠ 0 → (tick bars).2.count .commit = bars.length) ∧
    (shmSize (set_data bars) = 0 → (tick bars).2.count .commit = 0) := by
  have hall : ∀ b ∈ set_data bars, b.dirty = true := by
    intro b hb
    rcases List.mem_map.mp hb with ⟨a, _, rfl⟩
    rfl
  have hfilter : ((set_data bars).filter (·.dirty)).length = bars.length := by
    have : (set_data bars).filter (·.dirty) = set_data bars := by
      apply List.filter_eq_self.mpr
      intro b hb
      simp [hall b hb]
    rw [this]
    simp [set_data]
  refine ⟨hall, ?_, ?_, ?_⟩
  · apply List.filter_eq_nil_iff.mpr
    intro b hb
    simp [hall b hb]
  · intro hz
    have h := draw_now_spec_pos (set_data bars) hz
    calc (tick bars).2.count .commit
        = ((set_data bars).filter (·.dirty)).length := h.2.1
      _ = bars.length := hfilter
  · intro hz
    simp [tick, draw_now, hz]

/-- Witness for C9 at a concrete input: a single clean 2x1 bar is marked
dirty by `set_data` and committed exactly once by the tick. -/
theorem tick_c9_amended_witness :
    shmSize (set_data [⟨2, 1, false⟩]) = 8 ∧
    (tick [⟨2, 1, false⟩]).2.count .commit = 1 := by
  refine ⟨by decide, ?_⟩
  have h := (tick_c9_amended [⟨2, 1, false⟩]).2.2.1 (by decide)
  simpa using h

/-! ## Tray directory (src/tray.rs)

`TrayItem` keeps the fields of the source struct except the shared menu cache
(`menu : Rc<Cell<Option<TrayPopupMenu>>>`), which is modelled separately for
the menu client below.  The Interest Registry (`NotifierList`, defined in the
repository's `state.rs` outside the given sources) is modelled from the spec
as a list of registered runtime handles that `notify_data()` drains. -/

structure TrayItem where
  owner : String
  path : String
  is_kde : Bool
  id : String
  title : String
  status : String
  icon : String
  icon_path : String
  menu_path : String
deriving Repr, DecidableEq

/-- Embedding of `TrayItem::default()`. -/
def TrayItem.empty : TrayItem := ⟨"", "", false, "", "", "", "", "", ""⟩

/-- Modelled from the spec: `NotifierList` (the Interest Registry, whose
definition in `state.rs` is not among the given sources) is an unordered
collection of back-references to Runtime Contexts, drained whenever it
fires. -/
structure Tray where
  items : List TrayItem
  interested : List Nat
deriving Repr, DecidableEq

/-- D-Bus side effects of the tray directory operations, in order. -/
inductive TrayEv where
  | subscribe (owner path : String)
  | notifyData
deriving Repr, DecidableEq

/-- The owner/path parse shared by `do_add_item` and `do_del_item`:
`item.find('/')` locates the first `/`; the owner is everything before it and
the path everything from the `/` on.  An address with no `/` does not parse. -/
def splitAddr (item : String) : Option (String × String) :=
  match item.toList.findIdx? (· == '/') with
  | some pos => some (String.mk (item.toList.take pos), String.mk (item.toList.drop pos))
  | none => none

/-- Embedding of `do_add_item`: parse the address (returning at once when it
has no `/`), subscribe to the item's property changes, push a fresh default
record carrying owner/path/is_kde onto the item list — unconditionally, with
no duplicate check — and drain-notify the interest registry.  (The subsequent
asynchronous `get_all` populates properties via `handle_item_update` later.) -/
def do_add_item (tray : Tray) (kde : Bool) (item : String) : Tray × List TrayEv :=
  match splitAddr item with
  | none => (tray, [])
  | some (owner, path) =>
      ({ items := tray.items ++ [{ TrayItem.empty with owner := owner, path := path, is_kde := kde }],
         interested := [] },
       [.subscribe owner path, .notifyData])

/-- Embedding of `do_del_item`: parse the address (returning at once when it
has no `/`), retain only items whose (owner, path) differs, and drain-notify
the interest registry. -/
def do_del_item (tray : Tray) (item : String) : Tray × List TrayEv :=
  match splitAddr item with
  | none => (tray, [])
  | some (owner, path) =>
      ({ items := tray.items.filter fun i => i.owner != owner || i.path != path,
         interested := [] },
       [.notifyData])

/-- A replayable directory operation: `StatusNotifierItemRegistered` or
`StatusNotifierItemUnregistered`. -/
inductive TrayOp where
  | add (kde : Bool) (addr : String)
  | del (addr : String)

def trayStep (tray : Tray) : TrayOp → Tray
  | .add k a => (do_add_item tray k a).1
  | .del a => (do_del_item tray a).1

def trayReplay (ops : List TrayOp) : Tray := ops.foldl trayStep ⟨[], []⟩

/-- Reference model following the spec's words: a map keyed by (owner, path)
where adding an existing key replaces the record in place and removing erases
the key (a no-op when absent). -/
def refReplace : List ((String × String) × TrayItem) → String × String → TrayItem →
    List ((String × String) × TrayItem)
  | [], k, v => [(k, v)]
  | e :: rest, k, v => if e.1 = k then (k, v) :: rest else e :: refReplace rest k v

def refStep (m : List ((String × String) × TrayItem)) : TrayOp →
    List ((String × String) × TrayItem)
  | .add kde a =>
      match splitAddr a with
      | none => m
      | some (o, p) =>
          refReplace m (o, p) { TrayItem.empty with owner := o, path := p, is_kde := kde }
  | .del a =>
      match splitAddr a with
      | none => m
      | some (o, p) => m.filter fun e => decide (e.1 ≠ (o, p))

def refReplay (ops : List TrayOp) : List ((String × String) × TrayItem) :=
  ops.foldl refStep []

def trayKeys (t : Tray) : List (String × String) := t.items.map fun i => (i.owner, i.path)

def refKeys (m : List ((String × String) × TrayItem)) : List (String × String) := m.map (·.1)

theorem refKeys_refReplace (m : List ((String × String) × TrayItem))
    (k0 : String × String) (v : TrayItem) (k : String × String) :
    k ∈ refKeys (refReplace m k0 v) ↔ k ∈ refKeys m ∨ k = k0 := by
  induction m with
  | nil => simp [refReplace, refKeys, eq_comm]
  | cons e rest ih =>
      by_cases h : e.1 = k0
      · simp only [refReplace, if_pos h, refKeys, List.map_cons, List.mem_cons]
        rw [h]
        tauto
      · simp only [refReplace, if_neg h, refKeys, List.map_cons, List.mem_cons]
        rw [show (refReplace rest k0 v).map (·.1) = refKeys (refReplace rest k0 v) from rfl, ih]
        rw [show rest.map (·.1) = refKeys rest from rfl]
        tauto

theorem trayKeys_filter (items : List TrayItem) (o p : String) (k : String × String) :
    k ∈ (items.filter fun i => i.owner != o || i.path != p).map (fun i => (i.owner, i.path)) ↔
      (k ∈ items.map (fun i => (i.owner, i.path)) ∧ k ≠ (o, p)) := by
  simp only [List.mem_map, List.mem_filter, Bool.or_eq_true, bne_iff_ne]
  constructor
  · rintro ⟨i, ⟨hi, hpred⟩, rfl⟩
    refine ⟨⟨i, hi, rfl⟩, ?_⟩
    simp only [ne_eq, Prod.mk.injEq, not_and]
    intro ho hp
    exact hpred.elim (fun hn => hn ho) (fun hn => hn hp)
  · rintro ⟨⟨i, hi, rfl⟩, hk⟩
    refine ⟨i, ⟨hi, ?_⟩, rfl⟩
    by_cases ho : i.owner = o
    · right
      intro hp
      exact hk (by rw [ho, hp])
    · exact Or.inl ho

theorem refKeys_filter (m : List ((String × String) × TrayItem)) (k0 k : String × String) :
    k ∈ refKeys (m.filter fun e => decide (e.1 ≠ k0)) ↔ (k ∈ refKeys m ∧ k ≠ k0) := by
  simp only [refKeys, List.mem_map, List.mem_filter, decide_eq_true_eq]
  constructor
  · rintro ⟨e, ⟨he, hne⟩, rfl⟩
    exact ⟨⟨e, he, rfl⟩, hne⟩
  · rintro ⟨⟨e, he, rfl⟩, hne⟩
    exact ⟨e, ⟨he, hne⟩, rfl⟩

theorem trayStep_keys (t : Tray) (m : List ((String × String) × TrayItem))
    (h : ∀ k, k ∈ trayKeys t ↔ k ∈ refKeys m) (op : TrayOp) (k : String × String) :
    k ∈ trayKeys (trayStep t op) ↔ k ∈ refKeys (refStep m op) := by
  cases op with
  | add kde a =>
      cases hs : splitAddr a with
      | none =>
          simp only [trayStep, do_add_item, hs, refStep]
          exact h k
      | some op' =>
          obtain ⟨o, p⟩ := op'
          simp only [trayStep, do_add_item, hs, refStep]
          rw [refKeys_refReplace]
          simp only [trayKeys, List.map_append, List.mem_append, List.map_cons,
            List.map_nil, List.mem_cons, List.not_mem_nil, or_false]
          rw [show t.items.map (fun i => (i.owner, i.path)) = trayKeys t from rfl, h k]
  | del a =>
      cases hs : splitAddr a with
      | none =>
          simp only [trayStep, do_del_item, hs, refStep]
          exact h k
      | some op' =>
          obtain ⟨o, p⟩ := op'
          simp only [trayStep, do_del_item, hs, refStep]
          rw [show trayKeys ⟨t.items.filter fun i => i.owner != o || i.path != p, []⟩ =
              (t.items.filter fun i => i.owner != o || i.path != p).map
                (fun i => (i.owner, i.path)) from rfl]
          rw [trayKeys_filter, refKeys_filter]
          rw [show t.items.map (fun i => (i.owner, i.path)) = trayKeys t from rfl, h k]

theorem trayReplay_keys (ops : List TrayOp) (t : Tray)
    (m : List ((String × String) × TrayItem))
    (h : ∀ k, k ∈ trayKeys t ↔ k ∈ refKeys m) (k : String × String) :
    k ∈ trayKeys (ops.foldl trayStep t) ↔ k ∈ refKeys (ops.foldl refStep m) := by
  induction ops generalizing t m with
  | nil => exact h k
  | cons op ops ih =>
      simp only [List.foldl_cons]
      exact ih (trayStep t op) (refStep m op) (fun k => trayStep_keys t m h op k)

/-- C3 counterexample: registering the same address "a/b" twice.  The claim
says the second add replaces the existing record in place, so the live set
should hold one record for the key ("a", "/b") as the reference replay does;
`do_add_item` instead pushes unconditionally, producing two records with the
same key. -/
theorem tray_c3_counterexample :
    (trayReplay [.add false "a/b", .add false "a/b"]).items.length = 2 ∧
    trayKeys (trayReplay [.add false "a/b", .add false "a/b"]) = [("a", "/b"), ("a", "/b")] ∧
    (refReplay [.add false "a/b", .add false "a/b"]).length = 1 := by
  refine ⟨?_, ?_, ?_⟩ <;> rfl

/-- C3 amended: replaying item-registered/item-unregistered operations keyed
by (owner, path) yields a live list whose *key set* equals the reference
map's key set, but a duplicate add appends a second record with the same key
instead of replacing in place (removal deletes every record with the key);
removing a key with no matching item leaves the item list unchanged. -/
theorem tray_c3_amended :
    (∀ (ops : List TrayOp) (k : String × String),
      k ∈ trayKeys (trayReplay ops) ↔ k ∈ refKeys (refReplay ops)) ∧
    (∀ (tray : Tray) (addr o p : String), splitAddr addr = some (o, p) →
      (∀ i ∈ tray.items, ¬(i.owner = o ∧ i.path = p)) →
      (do_del_item tray addr).1.items = tray.items) ∧
    (∀ (tray : Tray) (kde : Bool) (addr o p : String), splitAddr addr = some (o, p) →
      (do_add_item tray kde addr).1.items =
        tray.items ++ [{ TrayItem.empty with owner := o, path := p, is_kde := kde }]) := by
  refine ⟨?_, ?_, ?_⟩
  · intro ops k
    exact trayReplay_keys ops ⟨[], []⟩ [] (fun k => Iff.rfl) k
  · intro tray addr o p hs hnone
    simp only [do_del_item, hs]
    apply List.filter_eq_self.mpr
    intro i hi
    have h := hnone i hi
    simp only [Bool.or_eq_true, bne_iff_ne]
    by_cases ho : i.owner = o
    · exact Or.inr (fun hp => h ⟨ho, hp⟩)
    · exact Or.inl ho
  · intro tray kde addr o p hs
    simp only [do_add_item, hs]

/-- Witness for C3 (amended) at concrete inputs: after adding then removing
"a/b" the key ("a", "/b") is live in neither model, and deleting "a/b" from a
directory holding only ("x", "/y") leaves the item list unchanged. -/
theorem tray_c3_amended_witness :
    (¬(("a", "/b") ∈ trayKeys (trayReplay [.add false "a/b", .del "a/b"]))) ∧
    (do_del_item ⟨[{ TrayItem.empty with owner := "x", path := "/y" }], []⟩ "a/b").1.items =
      [{ TrayItem.empty with owner := "x", path := "/y" }] := by
  constructor
  · rw [tray_c3_amended.1 [.add false "a/b", .del "a/b"] ("a", "/b")]
    simp [refReplay, refStep, splitAddr, refKeys, refReplace]
  · exact tray_c3_amended.2.1 ⟨[{ TrayItem.empty with owner := "x", path := "/y" }], []⟩
      "a/b" "a" "/b" rfl (by simp [TrayItem.empty])

theorem splitAddr_eq_none {addr : String} (h : '/' ∉ addr.toList) :
    splitAddr addr = none := by
  unfold splitAddr
  rw [List.findIdx?_eq_none_iff.mpr ?_]
  intro x hx
  simp only [beq_eq_false_iff_ne, ne_eq]
  exact fun hc => h (hc ▸ hx)

/-- C10: an item address with no `/` separator is silently ignored by both
registration and unregistration: `do_add_item` adds no item, subscribes to
nothing and sends no notification, and `do_del_item` removes nothing and
sends no notification, so the item set and the interest registry are
unchanged. -/
theorem malformed_addr_c10 (tray : Tray) (kde : Bool) (addr : String)
    (h : '/' ∉ addr.toList) :
    do_add_item tray kde addr = (tray, []) ∧ do_del_item tray addr = (tray, []) := by
  have hs : splitAddr addr = none := splitAddr_eq_none h
  exact ⟨by simp [do_add_item, hs], by simp [do_del_item, hs]⟩

/-- Witness for C10 at a concrete input: the slash-free address "abc" leaves
a directory holding one item and one registered party untouched on both
paths. -/
theorem malformed_addr_c10_witness :
    do_add_item ⟨[TrayItem.empty], [7]⟩ true "abc" = (⟨[TrayItem.empty], [7]⟩, []) ∧
    do_del_item ⟨[TrayItem.empty], [7]⟩ "abc" = (⟨[TrayItem.empty], [7]⟩, []) :=
  malformed_addr_c10 ⟨[TrayItem.empty], [7]⟩ true "abc" (by decide)

/-! ## Property updates (src/tray.rs, `handle_item_update`) -/

/-- A D-Bus `Variant<Box<dyn RefArg>>` as far as `handle_item_update` looks at
it: either a string or a value of some other type. -/
inductive DbusValue where
  | str (s : String)
  | other
deriving Repr, DecidableEq

/-- Embedding of `Variant::as_str()`. -/
def DbusValue.as_str : DbusValue → Option String
  | .str s => some s
  | .other => none

/-- One iteration of the property loop in `handle_item_update`: the key is
matched against the known property names; a string value is written into the
corresponding field, a non-string value (`as_str()` returning `None`) leaves
the field alone, and an unmatched key falls to the `_ => None` arm. -/
def applyProp (item : TrayItem) (key : String) (value : DbusValue) : TrayItem :=
  match key with
  | "Id" =>
      match value.as_str with
      | some v => { item with id := v }
      | none => item
  | "Title" =>
      match value.as_str with
      | some v => { item with title := v }
      | none => item
  | "IconName" =>
      match value.as_str with
      | some v => { item with icon := v }
      | none => item
  | "IconThemePath" =>
      match value.as_str with
      | some v => { item with icon_path := v }
      | none => item
  | "Menu" =>
      match value.as_str with
      | some v => { item with menu_path := v }
      | none => item
  | _ => item

/-- Embedding of `handle_item_update`: every item whose (owner, path) matches
the update's sender and path has each changed property folded into it; other
items are skipped (`continue`); the interest registry is then drain-notified. -/
def handle_item_update (tray : Tray) (owner path : String)
    (props : List (String × DbusValue)) : Tray :=
  { items := tray.items.map fun item =>
      if item.owner == owner && item.path == path
      then props.foldl (fun it kv => applyProp it kv.1 kv.2) item
      else item,
    interested := [] }

theorem applyProp_other (item : TrayItem) (key : String) :
    applyProp item key .other = item := by
  unfold applyProp
  split <;> rfl

/-- C4 counterexample: the claim lists `status` among the mapped property
names, but `handle_item_update` has no "Status" arm — a `{"Status": "Active"}`
update leaves the matching record's status field at its old value instead of
setting it to "Active". -/
theorem tray_c4_counterexample :
    ((handle_item_update ⟨[{ TrayItem.empty with owner := "o", path := "/p" }], []⟩
        "o" "/p" [("Status", DbusValue.str "Active")]).items.map (·.status)) = [""] ∧
    ("" : String) ≠ "Active" := by
  exact ⟨rfl, by decide⟩

/-- C4 amended: `handle_item_update` maps the known property names — id,
title, icon name, icon theme path, and menu object path, but *not* status —
into the matching record's fields; "Status", like any unknown name, leaves the
record unchanged; a known property whose value is not a string leaves only
that field unchanged while the rest of the update still applies; items whose
(owner, path) does not match are untouched. -/
theorem tray_c4_amended :
    (∀ (it : TrayItem) (v : String), applyProp it "Id" (.str v) = { it with id := v }) ∧
    (∀ (it : TrayItem) (v : String), applyProp it "Title" (.str v) = { it with title := v }) ∧
    (∀ (it : TrayItem) (v : String), applyProp it "IconName" (.str v) = { it with icon := v }) ∧
    (∀ (it : TrayItem) (v : String),
      applyProp it "IconThemePath" (.str v) = { it with icon_path := v }) ∧
    (∀ (it : TrayItem) (v : String), applyProp it "Menu" (.str v) = { it with menu_path := v }) ∧
    (∀ (it : TrayItem) (v : DbusValue), applyProp it "Status" v = it) ∧
    (∀ (it : TrayItem) (k : String) (v : DbusValue),
      k ∉ (["Id", "Title", "IconName", "IconThemePath", "Menu"] : List String) →
      applyProp it k v = it) ∧
    (∀ (it : TrayItem) (props₁ props₂ : List (String × DbusValue)) (k : String),
      (props₁ ++ (k, DbusValue.other) :: props₂).foldl (fun a kv => applyProp a kv.1 kv.2) it =
        (props₁ ++ props₂).foldl (fun a kv => applyProp a kv.1 kv.2) it) ∧
    (∀ (tray : Tray) (owner path : String) (props : List (String × DbusValue)),
      (handle_item_update tray owner path props).items =
        tray.items.map fun item =>
          if item.owner = owner ∧ item.path = path
          then props.foldl (fun it kv => applyProp it kv.1 kv.2) item
          else item) := by
  refine ⟨fun it v => rfl, fun it v => rfl, fun it v => rfl, fun it v => rfl, fun it v => rfl,
    ?_, ?_, ?_, ?_⟩
  · intro it v
    cases v <;> rfl
  · intro it k v hk
    unfold applyProp
    split <;> simp_all
  · intro it props₁ props₂ k
    rw [List.foldl_append, List.foldl_append, List.foldl_cons, applyProp_other]
  · intro tray owner path props
    unfold handle_item_update
    apply List.map_congr_left
    intro item _
    by_cases h : item.owner = owner ∧ item.path = path
    · rw [if_pos ?_, if_pos h]
      simp [h.1, h.2]
    · rw [if_neg ?_, if_neg h]
      simp only [Bool.and_eq_true, beq_iff_eq]
      exact h

/-- Witness for C4 (amended) at concrete inputs: the unknown key "Bogus"
leaves the default record unchanged, and a type-mismatched "Title" in the
middle of an update is skipped while the neighbouring "Id" still applies. -/
theorem tray_c4_amended_witness :
    applyProp TrayItem.empty "Bogus" (.str "x") = TrayItem.empty ∧
    ([("Title", DbusValue.other), ("Id", DbusValue.str "mail")].foldl
        (fun a kv => applyProp a kv.1 kv.2) TrayItem.empty) =
      { TrayItem.empty with id := "mail" } := by
  constructor
  · exact tray_c4_amended.2.2.2.2.2.2.1 TrayItem.empty "Bogus" (.str "x") (by decide)
  · have h := tray_c4_amended.2.2.2.2.2.2.2.1 TrayItem.empty []
      [("Id", DbusValue.str "mail")] "Title"
    simpa using h

/-! ## Click dispatch (src/tray.rs, `do_click`) -/

/-- Arguments of the remote invocation fired by `do_click`: `(0i32, 0i32)` for
the primary methods, `(15i32, direction)` for `Scroll`. -/
inductive ClickArgs where
  | pair (a b : Int)
  | scroll (delta : Int) (dir : String)
deriving Repr, DecidableEq

structure RemoteCall where
  iface : String
  member : String
  args : ClickArgs
deriving Repr, DecidableEq

/-- The `sni_path` chosen per item inside the `do_click` loop. -/
def sniInterface (i : TrayItem) : String :=
  if i.is_kde then "org.kde.StatusNotifierItem" else "org.freedesktop.StatusNotifierItem"

/-- The `method` match at the top of `do_click` (`_ => return` is `none`). -/
def clickMethod : Nat → Option String
  | 0 => some "Activate"
  | 1 => some "ContextMenu"
  | 2 => some "SecondaryActivate"
  | 5 => some "vertical"
  | 6 => some "vertical"
  | 7 => some "horizontal"
  | 8 => some "horizontal"
  | _ => none

/-- Embedding of `do_click`: resolve the click code to a method name, locate
the first item matching (owner, path) — the loop `return`s after spawning for
it — and fire `method(0, 0)` for codes below 3 or `Scroll(15, direction)`
otherwise.  No matching item (or an unmapped code) fires nothing. -/
def do_click (items : List TrayItem) (owner path : String) (how : Nat) :
    Option RemoteCall :=
  match clickMethod how with
  | none => none
  | some meth =>
      match items.find? (fun i => i.owner == owner && i.path == path) with
      | none => none
      | some item =>
          if how < 3 then some ⟨sniInterface item, meth, .pair 0 0⟩
          else some ⟨sniInterface item, "Scroll", .scroll 15 meth⟩

/-- C7: click code 0 invokes Activate, 1 ContextMenu, 2 SecondaryActivate on
the located item's StatusNotifierItem interface; codes 5 and 6 invoke Scroll
with direction "vertical", 7 and 8 Scroll with direction "horizontal"; and
when no tracked item matches (owner, path) no remote call is made. -/
theorem do_click_c7 (items : List TrayItem) (owner path : String) :
    (∀ item, items.find? (fun i => i.owner == owner && i.path == path) = some item →
      do_click items owner path 0 = some ⟨sniInterface item, "Activate", .pair 0 0⟩ ∧
      do_click items owner path 1 = some ⟨sniInterface item, "ContextMenu", .pair 0 0⟩ ∧
      do_click items owner path 2 = some ⟨sniInterface item, "SecondaryActivate", .pair 0 0⟩ ∧
      do_click items owner path 5 = some ⟨sniInterface item, "Scroll", .scroll 15 "vertical"⟩ ∧
      do_click items owner path 6 = some ⟨sniInterface item, "Scroll", .scroll 15 "vertical"⟩ ∧
      do_click items owner path 7 = some ⟨sniInterface item, "Scroll", .scroll 15 "horizontal"⟩ ∧
      do_click items owner path 8 = some ⟨sniInterface item, "Scroll", .scroll 15 "horizontal"⟩) ∧
    (items.find? (fun i => i.owner == owner && i.path == path) = none →
      ∀ how, do_click items owner path how = none) := by
  constructor
  · intro item h
    refine ⟨?_, ?_, ?_, ?_, ?_, ?_, ?_⟩ <;> simp [do_click, clickMethod, h]
  · intro h how
    unfold do_click
    cases clickMethod how with
    | none => rfl
    | some m => simp [h]

/-- Witness for C7 at concrete inputs: on a directory holding the KDE item
("o", "/p"), code 1 invokes ContextMenu and code 5 invokes Scroll with
direction "vertical"; on an empty directory nothing is fired. -/
theorem do_click_c7_witness :
    do_click [{ TrayItem.empty with owner := "o", path := "/p", is_kde := true }] "o" "/p" 1 =
      some ⟨"org.kde.StatusNotifierItem", "ContextMenu", .pair 0 0⟩ ∧
    do_click [{ TrayItem.empty with owner := "o", path := "/p", is_kde := true }] "o" "/p" 5 =
      some ⟨"org.kde.StatusNotifierItem", "Scroll", .scroll 15 "vertical"⟩ ∧
    do_click [] "o" "/p" 1 = none := by
  have h := (do_click_c7 [{ TrayItem.empty with owner := "o", path := "/p", is_kde := true }]
      "o" "/p").1 { TrayItem.empty with owner := "o", path := "/p", is_kde := true } (by rfl)
  exact ⟨h.2.1, h.2.2.2.1, (do_click_c7 [] "o" "/p").2 rfl 1⟩

/-! ## Tray menu client (src/tray.rs, `TrayPopup::get_size`) -/

/-- One entry of the cached menu layout (`MenuItem` in the source). -/
structure MenuEntry where
  id : Int
  is_sep : Bool
  label : String
deriving Repr, DecidableEq

/-- The shared menu cache content (`TrayPopupMenu`): the decoded entries plus
its own interest registry (modelled from the spec as a list of registrant
handles, as for the directory). -/
structure TrayPopupMenu where
  items : List MenuEntry
  interested : List Nat
deriving Repr, DecidableEq

/-- Cache effect of one `TrayPopup::get_size` call: a populated cache
(`take_in_some` runs its closure) is only read for sizing and put back
unchanged, and no fetch starts; an unfetched cache (the `unwrap_or_else`
branch) first has the empty placeholder `TrayPopupMenu::default()` installed
and then the asynchronous AboutToShow/GetLayout fetch is spawned.  The flag
records whether a GetLayout fetch was started; the pango text measurement
performed for the returned size does not touch the cache. -/
def get_size_cache (menu : Option TrayPopupMenu) : Option TrayPopupMenu × Bool :=
  match menu with
  | some m => (some m, false)
  | none => (some ⟨[], []⟩, true)

/-- Runs `n` consecutive `get_size` calls with no fetch resolution in between,
counting how many fetches were started. -/
def runGetSizes (menu : Option TrayPopupMenu) : Nat → Option TrayPopupMenu × Nat
  | 0 => (menu, 0)
  | n + 1 =>
      let (m', fetched) := get_size_cache menu
      let (m'', count) := runGetSizes m' n
      (m'', (if fetched then 1 else 0) + count)

theorem runGetSizes_some (m : TrayPopupMenu) (n : Nat) :
    runGetSizes (some m) n = (some m, 0) := by
  induction n with
  | zero => rfl
  | succ n ih => simp [runGetSizes, get_size_cache, ih]

/-- C5: on an unfetched cache the first `get_size` installs the empty
placeholder menu before starting the asynchronous fetch, so any later
`get_size` issued before the fetch resolves takes the synchronous cached path
and starts no second fetch: any positive number of consecutive `get_size`
calls from the unfetched state starts exactly one GetLayout fetch, and calls
on a populated cache start none. -/
theorem menu_fetch_c5 :
    (get_size_cache none = (some ⟨[], []⟩, true)) ∧
    (∀ m, get_size_cache (some m) = (some m, false)) ∧
    (∀ n, 1 ≤ n → (runGetSizes none n).2 = 1) ∧
    (∀ m n, (runGetSizes (some m) n).2 = 0) := by
  refine ⟨rfl, fun m => rfl, ?_, fun m n => by rw [runGetSizes_some]⟩
  intro n hn
  cases n with
  | zero => omega
  | succ n => simp [runGetSizes, get_size_cache, runGetSizes_some]

/-- Witness for C5 at a concrete input: two `get_size` calls before the fetch
resolves start exactly one fetch. -/
theorem menu_fetch_c5_witness : (runGetSizes none 2).2 = 1 :=
  menu_fetch_c5.2.2.1 2 (by decide)

/-! ## Configure events (src/state.rs, the `quick_assign` handler in
`State::new_bar`)

A bar is identified by its layer surface (`bar.ls_surf != *ls_surf` compares
protocol object identity), modelled as a numeric surface id.  `width`/`height`
are the `i32` fields of `Bar`, assigned from the event's `u32` values with an
`as i32` cast. -/

structure CBar where
  surf : Nat
  width : Int
  height : Int
  dirty : Bool
deriving Repr, DecidableEq

/-- The `u32 as i32` cast. -/
def u32ToI32 (u : Nat) : Int :=
  if u < 2 ^ 31 then (u : Int) else (u : Int) - 2 ^ 32

/-- The `for bar in &mut state.bars` loop of the `Event::Configure` arm:
non-matching bars are skipped (`continue`); each matching bar gets the
negotiated size, an `ack_configure(serial)` is sent, and the bar is marked
dirty.  Returns the updated bars and the acknowledged serials in order. -/
def configureLoop (target serial w h : Nat) : List CBar → List CBar × List Nat
  | [] => ([], [])
  | b :: rest =>
      let (rest', acks) := configureLoop target serial w h rest
      if b.surf == target then
        ({ b with width := u32ToI32 w, height := u32ToI32 h, dirty := true } :: rest',
         serial :: acks)
      else (b :: rest', acks)

/-- Embedding of the `Event::Configure` arm: run the loop over the active
bars, then call `state.request_draw()` (the final `true`). -/
def handleConfigure (bars : List CBar) (target serial w h : Nat) :
    List CBar × List Nat × Bool :=
  let (bars', acks) := configureLoop target serial w h bars
  (bars', acks, true)

theorem u32ToI32_of_lt {u : Nat} (h : u < 2 ^ 31) : u32ToI32 u = (u : Int) := by
  rw [u32ToI32, if_pos h]

/-- C6: for a configure event carrying (serial, width, height) with sizes in
`i32` range, every bar whose layer surface matches the event's surface has its
width and height set to the negotiated size and its dirty flag set, the
configure is acknowledged with the event's serial once per matching bar, and a
redraw is requested immediately after the event is processed; bars whose
surface does not match are left unchanged. -/
theorem configure_c6 (bars : List CBar) (target serial w h : Nat)
    (hw : w < 2 ^ 31) (hh : h < 2 ^ 31) :
    (handleConfigure bars target serial w h).1 =
      (bars.map fun b =>
        if b.surf = target
        then { b with width := (w : Int), height := (h : Int), dirty := true }
        else b) ∧
    (handleConfigure bars target serial w h).2.1 =
      (bars.filter fun b => b.surf == target).map (fun _ => serial) ∧
    (handleConfigure bars target serial w h).2.2 = true := by
  refine ⟨?_, ?_, rfl⟩
  · show (configureLoop target serial w h bars).1 = _
    induction bars with
    | nil => rfl
    | cons b rest ih =>
        by_cases hb : b.surf = target
        · simp [configureLoop, hb, u32ToI32_of_lt hw, u32ToI32_of_lt hh, ih]
        · simp [configureLoop, hb, ih]
  · show (configureLoop target serial w h bars).2 = _
    induction bars with
    | nil => rfl
    | cons b rest ih =>
        by_cases hb : b.surf = target
        · simp [configureLoop, List.filter_cons, hb, ih]
        · simp [configureLoop, List.filter_cons, hb, ih]

/-- Witness for C6 at concrete inputs: a configure (serial 9, 800x24) for
surface 1 resizes and dirties the matching bar, acknowledges serial 9 once,
leaves the non-matching bar untouched, and requests a redraw. -/
theorem configure_c6_witness :
    handleConfigure [⟨1, 0, 0, false⟩, ⟨2, 0, 0, false⟩] 1 9 800 24 =
      ([⟨1, 800, 24, true⟩, ⟨2, 0, 0, false⟩], [9], true) := by
  have h := configure_c6 [⟨1, 0, 0, false⟩, ⟨2, 0, 0, false⟩] 1 9 800 24
    (by decide) (by decide)
  have h1 := h.1
  have h2 := h.2.1
  have h3 := h.2.2
  refine Prod.ext ?_ (Prod.ext ?_ ?_) <;> simp_all

/-! ## Formatting (src/state.rs, `Runtime::format` and `Runtime::format_or`)

`strfmt::strfmt_map` is an external crate: it walks the format string and
calls the supplied closure once per `{key}` reference, so a format string is
modelled pre-parsed into literal and reference segments.  `Variable::read_in`
(from the `data` module, an external collaborator of this core) feeds the
formatter a string for a (name, key) pair or fails with a `FmtError`; a
variable is modelled as that function of the key. -/

/-- Embedding of `strfmt::FmtError`. -/
inductive FmtError where
  | invalid (s : String)
  | keyError (s : String)
  | typeError (s : String)
deriving Repr, DecidableEq

/-- A variable's `read_in` behaviour for a given key. -/
abbrev VarFn := String → Except FmtError String

/-- One segment of a parsed format string. -/
inductive Seg where
  | lit (s : String)
  | ref (key : String)

/-- The `q.key.find('.')` split inside the `format` closure: text before the
first `.` names the variable, text after it is the key (empty when there is
no dot). -/
def splitKey (k : String) : String × String :=
  match k.toList.findIdx? (· == '.') with
  | some p => (String.mk (k.toList.take p), String.mk (k.toList.drop (p + 1)))
  | none => (k, "")

/-- Embedding of `Runtime::format`: literals pass through; each `{key}`
reference is split into (name, key), the name looked up in the variable table
(first match, as in the `LinkedHashMap`), and the variable read; a missing
name yields `FmtError::KeyError(name)` and a failing read propagates its
error, aborting the whole format. -/
def format (vars : List (String × VarFn)) : List Seg → Except FmtError String
  | [] => .ok ""
  | .lit s :: rest =>
      match format vars rest with
      | .ok r => .ok (s ++ r)
      | .error e => .error e
  | .ref k :: rest =>
      match vars.lookup (splitKey k).1 with
      | some var =>
          match var (splitKey k).2 with
          | .ok s =>
              match format vars rest with
              | .ok r => .ok (s ++ r)
              | .error e => .error e
          | .error e => .error e
      | none => .error (.keyError (splitKey k).1)

/-- Embedding of `Runtime::format_or`: a formatting failure is logged
(`warn!`) and replaced by the empty string. -/
def format_or (vars : List (String × VarFn)) (segs : List Seg) : String :=
  match format vars segs with
  | .ok v => v
  | .error _ => ""

/-- The `{key}` references of a format string. -/
def refsOf : List Seg → List String
  | [] => []
  | .lit _ :: rest => refsOf rest
  | .ref k :: rest => k :: refsOf rest

/-- A reference resolves when its variable name is in the table and the read
of its key succeeds. -/
def Resolves (vars : List (String × VarFn)) (k : String) : Prop :=
  ∃ var s, vars.lookup (splitKey k).1 = some var ∧ var (splitKey k).2 = Except.ok s

theorem format_ok_of_resolves (vars : List (String × VarFn)) (segs : List Seg)
    (h : ∀ k ∈ refsOf segs, Resolves vars k) : ∃ v, format vars segs = .ok v := by
  induction segs with
  | nil => exact ⟨"", rfl⟩
  | cons seg rest ih =>
      cases seg with
      | lit s =>
          obtain ⟨v, hv⟩ := ih (fun k hk => h k (by simpa [refsOf] using hk))
          exact ⟨s ++ v, by simp [format, hv]⟩
      | ref k =>
          obtain ⟨var, s, hvar, hs⟩ := h k (by simp [refsOf])
          obtain ⟨v, hv⟩ := ih (fun k hk => h k (by simp [refsOf, hk]))
          exact ⟨s ++ v, by simp [format, hvar, hs, hv]⟩

theorem resolves_of_format_ok (vars : List (String × VarFn)) (segs : List Seg)
    (v : String) (h : format vars segs = .ok v) :
    ∀ k ∈ refsOf segs, Resolves vars k := by
  induction segs generalizing v with
  | nil => simp [refsOf]
  | cons seg rest ih =>
      cases seg with
      | lit s =>
          intro k hk
          simp only [refsOf] at hk
          simp only [format] at h
          cases hr : format vars rest with
          | ok r => exact ih r hr k hk
          | error e => rw [hr] at h; exact absurd h (by simp)
      | ref kk =>
          intro k hk
          simp only [format] at h
          split at h
          next var hvar =>
            split at h
            next s hs =>
              split at h
              next r hr =>
                rcases List.mem_cons.mp hk with rfl | hk
                · exact ⟨var, s, hvar, hs⟩
                · exact ih r hr k hk
              next e hr => exact absurd h (by simp)
            next e hs => exact absurd h (by simp)
          next hvar => exact absurd h (by simp)

/-- C8: when every variable reference in a format string resolves,
`format_or` returns the successfully formatted string; when any reference
fails to resolve, the underlying `format` errors and `format_or` recovers by
returning the empty string (after logging a warning) instead of propagating
the error — a formatting failure is never fatal. -/
theorem format_or_c8 (vars : List (String × VarFn)) (segs : List Seg) :
    ((∀ k ∈ refsOf segs, Resolves vars k) →
      ∃ v, format vars segs = .ok v ∧ format_or vars segs = v) ∧
    ((∃ k ∈ refsOf segs, ¬Resolves vars k) →
      (∃ e, format vars segs = .error e) ∧ format_or vars segs = "") := by
  constructor
  · intro h
    obtain ⟨v, hv⟩ := format_ok_of_resolves vars segs h
    exact ⟨v, hv, by simp [format_or, hv]⟩
  · rintro ⟨k, hk, hnr⟩
    cases hf : format vars segs with
    | ok v => exact absurd (resolves_of_format_ok vars segs v hf k hk) hnr
    | error e => exact ⟨⟨e, rfl⟩, by simp [format_or, hf]⟩

/-- Witness for C8 at concrete inputs: with the table `{clock ↦ ok "12:00"}`,
the format `"now {clock}"` renders to `"now 12:00"`, while the format
`"{missing}"` resolves nothing and yields the empty string. -/
theorem format_or_c8_witness :
    format_or [("clock", fun _ => Except.ok "12:00")] [.lit "now ", .ref "clock"] =
      "now 12:00" ∧
    format_or [("clock", fun _ => Except.ok "12:00")] [.ref "missing"] = "" := by
  constructor
  · have hres : ∀ k ∈ refsOf [.lit "now ", .ref "clock"],
        Resolves [("clock", fun _ => Except.ok "12:00")] k := by
      intro k hk
      simp only [refsOf, List.mem_cons, List.not_mem_nil, or_false] at hk
      subst hk
      exact ⟨fun _ => Except.ok "12:00", "12:00", rfl, rfl⟩
    obtain ⟨v, hv, hfo⟩ :=
      (format_or_c8 [("clock", fun _ => Except.ok "12:00")] [.lit "now ", .ref "clock"]).1 hres
    have h : format [("clock", fun _ => Except.ok "12:00")] [.lit "now ", .ref "clock"] =
        .ok "now 12:00" := by rfl
    have hv2 : v = "now 12:00" := Except.ok.inj (hv.symm.trans h)
    rw [hfo]
    exact hv2
  · exact ((format_or_c8 [("clock", fun _ => Except.ok "12:00")] [.ref "missing"]).2
      ⟨"missing", by simp [refsOf], by
        rintro ⟨var, s, hvar, _⟩
        simp [splitKey, List.lookup] at hvar⟩).2

end Rwaybar
